import Mathlib

/-!
Shallow embedding of calmh/freezebot (src/main.go), a GitHub issue
maintenance bot, together with proofs about the claims of its
specification.

Modelling conventions:
* Go `time.Time` values are modelled as `Int` nanoseconds since Go's zero
  time (January 1, year 1).  The zero `time.Time` (e.g. `GetClosedAt` of a
  nil pointer) is the integer `0`.
* Go `time.Duration` is a 64-bit signed nanosecond count; `Time.Sub`
  saturates at the bounds of `int64`, which `goSub` reproduces.  Go's
  integer division truncates toward zero, which `Int.tdiv` reproduces.
* The remote GitHub API is a `Store` of oracle functions; paginated calls
  return the page contents together with the `NextPage` value of the
  response (`0` meaning no further page, as in go-github).
* `os.Exit` is modelled by an `Option Nat` outcome component (`some code`),
  aborting all further processing; unbounded `for {}` pagination loops take
  a fuel parameter, and running out of fuel yields `none` (no Go behaviour
  corresponds to `none`; theorems supply enough fuel).
* Mutation calls (`labelIssue` &c.) are modelled twice: inside the run
  model they are the emitted `Action`s (the run model assumes mutations
  succeed), and their retry loops are modelled separately as functions of
  an oracle `fails : Nat → Bool` giving the outcome of each attempt.
-/

namespace Freezebot

/-- Nanoseconds in one hour: Go's `time.Hour`. -/
def nanosPerHour : Int := 3600000000000

/-- Nanoseconds in 24 hours. -/
def nanosPerDay : Int := 86400000000000

/-- Largest Go `time.Duration` (`1<<63 - 1` nanoseconds). -/
def maxDuration : Int := 9223372036854775807

/-- Smallest Go `time.Duration` (`-1 << 63` nanoseconds). -/
def minDuration : Int := -9223372036854775808

/-- The retry bound: `const retries = 5` in main.go. -/
def retries : Nat := 5

/-- A GitHub label, as much of it as the bot reads (`GetName`). -/
structure GHLabel where
  name : String
deriving DecidableEq

/-- A GitHub issue, the fields read by the bot.  Getter/nil-pointer
defaults of go-github are folded into the field values (`closedAt = 0`
stands for a nil `ClosedAt`, i.e. the zero time). -/
structure Issue where
  number : Int
  state : String
  locked : Bool
  closedAt : Int
  updatedAt : Int
  labels : List GHLabel
deriving DecidableEq

/-- configDirective from main.go. -/
structure ConfigDirective where
  query : String
  state : String
  daysClosed : Int
  daysNotUpdated : Int
  label : String
  lock : Bool
  close : Bool
  closeComment : String
deriving DecidableEq

/-- configEntry from main.go. -/
structure ConfigEntry where
  owner : String
  repos : List String
  directives : List ConfigDirective
deriving DecidableEq

/-- Go `now.Sub(t)`: the difference saturated to the `int64` range of
`time.Duration`. -/
def goSub (now t : Int) : Int :=
  if now - t > maxDuration then maxDuration
  else if now - t < minDuration then minDuration
  else now - t

/-- daysSince from main.go: `int(time.Since(t) / 24 / time.Hour)`.
`time.Since t` is `goSub now t`; both divisions truncate toward zero. -/
def daysSince (now t : Int) : Int :=
  ((goSub now t).tdiv 24).tdiv nanosPerHour

/-- contains from main.go: whether label name `t` occurs in `l`. -/
def contains : List GHLabel → String → Bool
  | [], _ => false
  | s :: rest, t => if s.name = t then true else contains rest t

/-- A mutation the bot performs against an issue. -/
inductive Action where
  | labelA : Int → String → Action
  | commentA : Int → String → Action
  | closeA : Int → Action
  | lockA : Int → Action
deriving DecidableEq

/-- handleIssue from main.go, as the pure evaluator: the sequence of
mutations performed for one issue under one directive (in program order). -/
def handleIssue (now : Int) (i : Issue) (d : ConfigDirective) : List Action :=
  if i.locked then []
  else if d.daysClosed > 0 ∧ daysSince now i.closedAt < d.daysClosed then []
  else if d.daysNotUpdated > 0 ∧ daysSince now i.updatedAt < d.daysNotUpdated then []
  else
    (if d.label ≠ "" ∧ contains i.labels d.label = false then
      [Action.labelA i.number d.label] else [])
    ++ (if d.close ∧ i.state ≠ "closed" then
        (if d.closeComment ≠ "" then [Action.commentA i.number d.closeComment] else [])
        ++ [Action.closeA i.number]
      else [])
    ++ (if d.lock then [Action.lockA i.number] else [])

/-! ## Retry loops

Each mutation wrapper runs `for i := 0; i < retries; i++`: attempt the
call, return on success, otherwise log and `time.Sleep(i seconds)`.  The
attempt outcomes are an oracle `fails : Nat → Bool` (`true` = the call at
that loop index returns a non-nil error).  A trace records whether some
attempt succeeded, the sleep durations performed (in seconds, in order),
and how many attempts were made. -/

structure RetryTrace where
  succeeded : Bool
  sleeps : List Nat
  attempts : Nat
deriving DecidableEq

/-- The retry for-loop: `fuel` is the remaining iteration count, `i` the
loop index.  On a failed attempt the loop sleeps `i` seconds and
continues; on success it returns at once. -/
def retryCore (fails : Nat → Bool) : Nat → Nat → RetryTrace
  | 0, _ => ⟨false, [], 0⟩
  | Nat.succ fuel, i =>
    if fails i then
      let r := retryCore fails fuel (i + 1)
      ⟨r.succeeded, i :: r.sleeps, r.attempts + 1⟩
    else ⟨true, [], 1⟩

/-- The full loop, `retries` iterations from index 0. -/
def retryRun (fails : Nat → Bool) : RetryTrace :=
  retryCore fails retries 0

/-- Outcome of one mutation wrapper: normal return or `os.Exit`, with the
sleeps performed. -/
inductive MutOutcome where
  | ok : List Nat → MutOutcome
  | exited : Nat → List Nat → MutOutcome
deriving DecidableEq

/-- labelIssue from main.go.  The loop body assigns the outer `err`
(`_, _, err = ...`), so after exhaustion `err` holds the last failure and
the final `if err != nil` calls `os.Exit(1)`. -/
def labelIssue (fails : Nat → Bool) : MutOutcome :=
  let r := retryRun fails
  if r.succeeded then MutOutcome.ok r.sleeps else MutOutcome.exited 1 r.sleeps

/-- lockIssue from main.go.  The loop body declares a fresh `err` with
`:=`, shadowing the outer `var err error`; the outer `err` is never
assigned, stays nil, and the post-loop `if err != nil { os.Exit(1) }`
never fires: the function returns normally even after exhausting all
attempts. -/
def lockIssue (fails : Nat → Bool) : MutOutcome :=
  let r := retryRun fails
  MutOutcome.ok r.sleeps

/-- closeIssue from main.go: same `:=` shadowing of `err` as lockIssue,
so exhaustion also returns normally. -/
def closeIssue (fails : Nat → Bool) : MutOutcome :=
  let r := retryRun fails
  MutOutcome.ok r.sleeps

/-- commentIssue from main.go: same `:=` shadowing of `err` as lockIssue,
so exhaustion also returns normally. -/
def commentIssue (fails : Nat → Bool) : MutOutcome :=
  let r := retryRun fails
  MutOutcome.ok r.sleeps

/-! ## The run model

main / handleRepoIssues / findIssues &c., over an abstract remote store.
Each function yields a trace of externally visible events plus an
`Option Nat` exit code (`some c` for `os.Exit(c)`); the whole value is
wrapped in `Option`, `none` marking pagination-loop fuel exhaustion
(a model artifact only: theorems always supply sufficient fuel). -/

/-- Externally visible events of a run, in order. -/
inductive Event where
  | repoStart : String → String → Event
  | listReposReq : String → Nat → Nat → Event
  | listIssuesReq : String → String → String → Nat → Nat → Event
  | searchIssuesReq : String → Nat → Nat → Event
  | act : String → String → Action → Event
deriving DecidableEq

/-- The remote store: each paginated call maps the request page to either a
transport error or the page contents and the response `NextPage`. -/
structure Store where
  listRepos : String → Nat → Except Unit (List String × Nat)
  listIssuesPage : String → String → String → Nat → Except Unit (List Issue × Nat)
  searchIssuesPage : String → Nat → Except Unit (List Issue × Nat)

/-- The pagination loop of findIssuesByList: request page `page`, on error
return it at once (the whole accumulator is discarded), otherwise append
the page and continue at `NextPage` until it is 0.  `stateQ` is
`opts.State` (the directive state, the zero value "" when unset). -/
def findListLoop (st : Store) (owner repo stateQ : String) (acc : List Issue) :
    Nat → Nat → Option (List Event × Except Unit (List Issue))
  | 0, _ => none
  | Nat.succ fuel, page =>
    match st.listIssuesPage owner repo stateQ page with
    | Except.error e => some ([Event.listIssuesReq owner repo stateQ 100 page], Except.error e)
    | Except.ok (is, next) =>
      if next = 0 then
        some ([Event.listIssuesReq owner repo stateQ 100 page], Except.ok (acc ++ is))
      else
        match findListLoop st owner repo stateQ (acc ++ is) fuel next with
        | none => none
        | some (evs, r) => some (Event.listIssuesReq owner repo stateQ 100 page :: evs, r)

/-- findIssuesByList from main.go: page through repository issues from the
zero-valued initial page. -/
def findIssuesByList (st : Store) (owner repo : String) (d : ConfigDirective) (fuel : Nat) :
    Option (List Event × Except Unit (List Issue)) :=
  findListLoop st owner repo d.state [] fuel 0

/-- The search string of findIssuesByQuery:
`fmt.Sprintf("%s repo:%s/%s", directive.Query, owner, repo)`. -/
def searchString (d : ConfigDirective) (owner repo : String) : String :=
  d.query ++ " repo:" ++ owner ++ "/" ++ repo

/-- The pagination loop of findIssuesByQuery, same protocol as
findListLoop over the search endpoint. -/
def findSearchLoop (st : Store) (q : String) (acc : List Issue) :
    Nat → Nat → Option (List Event × Except Unit (List Issue))
  | 0, _ => none
  | Nat.succ fuel, page =>
    match st.searchIssuesPage q page with
    | Except.error e => some ([Event.searchIssuesReq q 100 page], Except.error e)
    | Except.ok (is, next) =>
      if next = 0 then
        some ([Event.searchIssuesReq q 100 page], Except.ok (acc ++ is))
      else
        match findSearchLoop st q (acc ++ is) fuel next with
        | none => none
        | some (evs, r) => some (Event.searchIssuesReq q 100 page :: evs, r)

/-- findIssuesByQuery from main.go. -/
def findIssuesByQuery (st : Store) (owner repo : String) (d : ConfigDirective) (fuel : Nat) :
    Option (List Event × Except Unit (List Issue)) :=
  findSearchLoop st (searchString d owner repo) [] fuel 0

/-- findIssues from main.go: search when the directive has a query,
repository listing otherwise. -/
def findIssues (st : Store) (owner repo : String) (d : ConfigDirective) (fuel : Nat) :
    Option (List Event × Except Unit (List Issue)) :=
  if d.query ≠ "" then findIssuesByQuery st owner repo d fuel
  else findIssuesByList st owner repo d fuel

/-- handleRepoIssues from main.go: for each directive, select issues
(aborting the run with exit code 1 on a selection error) and evaluate
each selected issue; the emitted actions become events. -/
def handleRepoIssuesRun (st : Store) (now : Int) (owner repo : String) (fuel : Nat) :
    List ConfigDirective → Option (List Event × Option Nat)
  | [] => some ([], none)
  | d :: ds =>
    match findIssues st owner repo d fuel with
    | none => none
    | some (evs, Except.error _) => some (evs, some 1)
    | some (evs, Except.ok issues) =>
      let actEvs := (issues.map fun i => (handleIssue now i d).map (Event.act owner repo)).flatten
      match handleRepoIssuesRun st now owner repo fuel ds with
      | none => none
      | some (evs2, c) => some (evs ++ actEvs ++ evs2, c)

/-- Processing of a list of repositories in order (the explicit-repos loop
of main, also each discovered page); every repository is logged
(`repoStart`) and handled, an exit aborting the rest. -/
def processRepos (st : Store) (now : Int) (owner : String) (ds : List ConfigDirective)
    (fuel : Nat) : List String → Option (List Event × Option Nat)
  | [] => some ([], none)
  | r :: rs =>
    match handleRepoIssuesRun st now owner r fuel ds with
    | none => none
    | some (evs, some c) => some (Event.repoStart owner r :: evs, some c)
    | some (evs, none) =>
      match processRepos st now owner ds fuel rs with
      | none => none
      | some (evs2, c) => some (Event.repoStart owner r :: evs ++ evs2, c)

/-- The repository enumeration loop of main: request page `page` (per-page
100), exit 1 on error, process the returned repositories, and continue at
`NextPage` until it is 0. -/
def listReposLoop (st : Store) (now : Int) (owner : String) (ds : List ConfigDirective)
    (fuel : Nat) : Nat → Nat → Option (List Event × Option Nat)
  | 0, _ => none
  | Nat.succ lfuel, page =>
    match st.listRepos owner page with
    | Except.error _ => some ([Event.listReposReq owner 100 page], some 1)
    | Except.ok (repos, next) =>
      match processRepos st now owner ds fuel repos with
      | none => none
      | some (evs, some c) => some (Event.listReposReq owner 100 page :: evs, some c)
      | some (evs, none) =>
        if next = 0 then some (Event.listReposReq owner 100 page :: evs, none)
        else
          match listReposLoop st now owner ds fuel lfuel next with
          | none => none
          | some (evs2, c) =>
            some (Event.listReposReq owner 100 page :: evs ++ evs2, c)

/-- The body of main's entry loop: an empty owner exits with code 2;
otherwise the explicit repository list is processed, and only when that
list is empty is the owner's repository enumeration paged through from
the zero-valued initial page. -/
def processEntry (st : Store) (now : Int) (fuel : Nat) (cfg : ConfigEntry) :
    Option (List Event × Option Nat) :=
  if cfg.owner = "" then some ([], some 2)
  else
    match processRepos st now cfg.owner cfg.directives fuel cfg.repos with
    | none => none
    | some (evs, some c) => some (evs, some c)
    | some (evs, none) =>
      if cfg.repos ≠ [] then some (evs, none)
      else
        match listReposLoop st now cfg.owner cfg.directives fuel fuel 0 with
        | none => none
        | some (evs2, c) => some (evs ++ evs2, c)

/-- main's loop over configuration entries; an exit from one entry aborts
the remaining entries. -/
def runEntries (st : Store) (now : Int) (fuel : Nat) :
    List ConfigEntry → Option (List Event × Option Nat)
  | [] => some ([], none)
  | cfg :: rest =>
    match processEntry st now fuel cfg with
    | none => none
    | some (evs, some c) => some (evs, some c)
    | some (evs, none) =>
      match runEntries st now fuel rest with
      | none => none
      | some (evs2, c) => some (evs ++ evs2, c)

/-! ## Trace observations -/

/-- The repository names logged as processed, in order. -/
def repoStarts : List Event → List String
  | [] => []
  | Event.repoStart _ r :: es => r :: repoStarts es
  | _ :: es => repoStarts es

/-- The repository-enumeration requests of a trace, as (perPage, page)
pairs in order. -/
def repoListReqs : List Event → List (Nat × Nat)
  | [] => []
  | Event.listReposReq _ pp p :: es => (pp, p) :: repoListReqs es
  | _ :: es => repoListReqs es

/-- Whether an event belongs to issue-level processing (selection requests
and issue mutations), as opposed to repository enumeration or logging. -/
def issueLevel : Event → Bool
  | Event.listIssuesReq _ _ _ _ _ => true
  | Event.searchIssuesReq _ _ _ => true
  | Event.act _ _ _ => true
  | _ => false

/-- A store whose reads all succeed with empty results (for witnesses). -/
def emptyStore : Store :=
  ⟨fun _ _ => Except.ok ([], 0), fun _ _ _ _ => Except.ok ([], 0),
    fun _ _ => Except.ok ([], 0)⟩

/-- A store whose issue reads fail (for witnesses). -/
def brokenIssueStore : Store :=
  ⟨fun _ _ => Except.ok ([], 0), fun _ _ _ _ => Except.error (),
    fun _ _ => Except.error ()⟩

/-- A concrete paginated repository listing: requested page `p` holds
`pages[p]` (out of range: empty), and the response NextPage chains `p + 1`
while further pages remain, `0` at the end; the initial zero page reads
the first page. -/
def pagesOracle (pages : List (List String)) (p : Nat) : Except Unit (List String × Nat) :=
  Except.ok (pages.getD p [], if p + 1 < pages.length then p + 1 else 0)

/-- The expected trace of enumerating `m` further pages starting at page
`p`, with no directives: each page contributes its request (per-page 100)
followed by the processing log of its repositories. -/
def enumTrace (owner : String) (pages : List (List String)) : Nat → Nat → List Event
  | 0, _ => []
  | Nat.succ k, p =>
    Event.listReposReq owner 100 p ::
      (pages.getD p []).map (Event.repoStart owner)
      ++ (if p + 1 < pages.length then enumTrace owner pages k (p + 1) else [])

/-- Concrete page contents for the enumeration witness. -/
def pagesW : List (List String) := [["r1"], ["r2", "r3"]]

/-- A store serving pagesW as the repository listing (for witnesses). -/
def pagesStoreW : Store :=
  ⟨fun _ p => pagesOracle pagesW p, fun _ _ _ _ => Except.ok ([], 0),
    fun _ _ => Except.ok ([], 0)⟩

/-! ## Theorems -/

/-- Helper: the retry loop makes at most `fuel` attempts. -/
theorem retryCore_attempts_le (fails : Nat → Bool) :
    ∀ fuel i, (retryCore fails fuel i).attempts ≤ fuel := by
  intro fuel
  induction fuel with
  | zero => intro i; simp [retryCore]
  | succ f ih =>
    intro i
    by_cases h : fails i
    · simpa [retryCore, h] using ih (i + 1)
    · simp [retryCore, h]

/-- Helper: a failed attempt sleeps its index and continues. -/
theorem retryCore_succ_of_fail (fails : Nat → Bool) (fuel i : Nat) (h : fails i = true) :
    retryCore fails (fuel + 1) i =
      ⟨(retryCore fails fuel (i + 1)).succeeded, i :: (retryCore fails fuel (i + 1)).sleeps,
        (retryCore fails fuel (i + 1)).attempts + 1⟩ := by
  simp [retryCore, h]

/-- Helper: a successful attempt returns at once with no sleep. -/
theorem retryCore_succ_of_ok (fails : Nat → Bool) (fuel i : Nat) (h : fails i = false) :
    retryCore fails (fuel + 1) i = ⟨true, [], 1⟩ := by
  simp [retryCore, h]

/-- Helper: with `m` leading failures then a success, and fuel to spare,
the loop succeeds after sleeping `i, i+1, ..., i+m-1` seconds in `m+1`
attempts. -/
theorem retryCore_eval (fails : Nat → Bool) :
    ∀ (m i fuel : Nat), m < fuel → (∀ k, k < m → fails (i + k) = true) →
      fails (i + m) = false →
      retryCore fails fuel i = ⟨true, List.range' i m, m + 1⟩ := by
  intro m
  induction m with
  | zero =>
    intro i fuel hfuel _ h0
    obtain ⟨f, rfl⟩ : ∃ f, fuel = f + 1 := ⟨fuel - 1, by omega⟩
    simpa [List.range'] using retryCore_succ_of_ok fails f i (by simpa using h0)
  | succ m ih =>
    intro i fuel hfuel hall hm
    obtain ⟨f, rfl⟩ : ∃ f, fuel = f + 1 := ⟨fuel - 1, by omega⟩
    have hi : fails i = true := by simpa using hall 0 (by omega)
    rw [retryCore_succ_of_fail fails f i hi]
    have hrec : retryCore fails f (i + 1) = ⟨true, List.range' (i + 1) m, m + 1⟩ := by
      refine ih (i + 1) f (by omega) (fun k hk => ?_) ?_
      · have := hall (k + 1) (by omega)
        rwa [show i + (k + 1) = i + 1 + k by omega] at this
      · rwa [show i + (m + 1) = i + 1 + m by omega] at hm
    rw [hrec]
    simp [List.range']

/-- C1: an issue with `locked = true` is never mutated: for every
directive, handleIssue emits no actions — the locked check is first and
returns before any other predicate or action is considered. -/
theorem locked_issue_untouched (now : Int) (i : Issue) (d : ConfigDirective)
    (h : i.locked = true) : handleIssue now i d = [] := by
  simp [handleIssue, h]

theorem locked_issue_untouched_witness :
    (Issue.mk 7 "open" true 0 0 []).locked = true ∧
    handleIssue 0 (Issue.mk 7 "open" true 0 0 [])
      (ConfigDirective.mk "q" "all" 1 1 "stale" true true "bye") = [] :=
  ⟨rfl, locked_issue_untouched 0 _ _ rfl⟩

/-- C2, behaviour at the failing input: when every attempt fails, the
outer `err` of lockIssue, closeIssue and commentIssue is shadowed by the
loop-local `err`, so each returns normally (after sleeps 0..4) and the
run continues; only labelIssue, whose loop assigns the outer `err`,
terminates the process with status 1 as the spec requires of all four. -/
theorem mutation_exhaustion_outcomes :
    lockIssue (fun _ => true) = MutOutcome.ok [0, 1, 2, 3, 4] ∧
    closeIssue (fun _ => true) = MutOutcome.ok [0, 1, 2, 3, 4] ∧
    commentIssue (fun _ => true) = MutOutcome.ok [0, 1, 2, 3, 4] ∧
    labelIssue (fun _ => true) = MutOutcome.exited 1 [0, 1, 2, 3, 4] := by
  exact ⟨rfl, rfl, rfl, rfl⟩

/-- C3: the retry loop attempts a mutation at most 5 times; failing on
attempts 1–4 (indices 0–3) and succeeding on the 5th yields success after
exactly the four backoff sleeps 0, 1, 2, 3 seconds; succeeding on the
first attempt performs no sleep. -/
theorem retry_bound_and_backoff :
    (∀ fails, (retryRun fails).attempts ≤ 5) ∧
    (∀ fails, (∀ j, j < 4 → fails j = true) → fails 4 = false →
      retryRun fails = ⟨true, [0, 1, 2, 3], 5⟩) ∧
    (∀ fails, fails 0 = false → retryRun fails = ⟨true, [], 1⟩) := by
  refine ⟨fun fails => retryCore_attempts_le fails retries 0,
    fun fails hf h4 => ?_, fun fails h0 => ?_⟩
  · have := retryCore_eval fails 4 0 retries (by norm_num [retries])
      (fun k hk => by simpa using hf k hk) (by simpa using h4)
    simpa [retryRun] using this
  · have := retryCore_eval fails 0 0 retries (by norm_num [retries])
      (fun k hk => absurd hk (by omega)) (by simpa using h0)
    simpa [retryRun] using this

theorem retry_bound_and_backoff_witness :
    retryRun (fun j => decide (j < 4)) = ⟨true, [0, 1, 2, 3], 5⟩ :=
  retry_bound_and_backoff.2.1 (fun j => decide (j < 4))
    (fun j hj => decide_eq_true hj) (by decide)

/-- Helper: the two truncating divisions of daysSince compose into one
division by a 24-hour nanosecond count, for a nonnegative duration. -/
theorem tdiv_tdiv_day (d : Int) (hd : 0 ≤ d) :
    (d.tdiv 24).tdiv nanosPerHour = d.tdiv nanosPerDay := by
  rw [nanosPerHour, nanosPerDay, Int.tdiv_eq_ediv hd (by norm_num),
    Int.tdiv_eq_ediv (Int.ediv_nonneg hd (by norm_num)) (by norm_num),
    Int.tdiv_eq_ediv hd (by norm_num)]
  obtain ⟨n, rfl⟩ := Int.eq_ofNat_of_zero_le hd
  norm_cast
  rw [Nat.div_div_eq_div_mul]

/-- Helper: a nonnegative difference within the Duration range is not
saturated by goSub. -/
theorem goSub_of_fits (now t : Int) (h0 : 0 ≤ now - t) (h1 : now - t ≤ maxDuration) :
    goSub now t = now - t := by
  simp only [goSub, maxDuration, minDuration] at *
  rw [if_neg (by omega), if_neg (by omega)]

/-- C4 counterexample: an issue closed exactly N·24 hours before the
current instant, for N = 106752 and a present-day clock value (about year
2026 in nanoseconds since Go's zero time), has daysSince = 106751 ≠ N
because `time.Sub` saturates at 2^63−1 ns, and the strict-less-than
daysClosed check then blocks the directive. -/
theorem daysSince_exact_boundary_cex :
    daysSince 63900000000000000000 (63900000000000000000 - 106752 * nanosPerDay) = 106751 ∧
    ((106752 : Int) > 0 ∧
      daysSince 63900000000000000000 (63900000000000000000 - 106752 * nanosPerDay) < 106752) := by
  constructor
  · decide
  · exact ⟨by norm_num, by decide⟩

/-- C4 amended: whenever the elapsed interval fits in Go's Duration
(so in particular for every cutoff N of at most 106751 days ≈ 292 years),
daysSince is the truncated count of whole 24-hour periods, an issue closed
exactly N·24 hours ago has daysSince = N, and the strict-less-than
daysClosed check does not block the directive at exactly N days. -/
theorem daysSince_exact_boundary :
    (∀ now t : Int, 0 ≤ now - t → now - t ≤ maxDuration →
      daysSince now t = (now - t).tdiv nanosPerDay) ∧
    (∀ now N : Int, 0 < N → N ≤ 106751 →
      daysSince now (now - N * nanosPerDay) = N ∧
      ¬(N > 0 ∧ daysSince now (now - N * nanosPerDay) < N)) := by
  have key : ∀ now t : Int, 0 ≤ now - t → now - t ≤ maxDuration →
      daysSince now t = (now - t).tdiv nanosPerDay := by
    intro now t h0 h1
    rw [daysSince, goSub_of_fits now t h0 h1, tdiv_tdiv_day _ h0]
  refine ⟨key, fun now N hN hNle => ?_⟩
  have hd : now - (now - N * nanosPerDay) = N * nanosPerDay := by ring
  have h0 : 0 ≤ now - (now - N * nanosPerDay) := by
    rw [hd]; exact mul_nonneg hN.le (by rw [nanosPerDay]; norm_num)
  have h1 : now - (now - N * nanosPerDay) ≤ maxDuration := by
    rw [hd, nanosPerDay, maxDuration]; nlinarith
  have hval : daysSince now (now - N * nanosPerDay) = N := by
    rw [key now _ h0 h1, hd, Int.mul_tdiv_cancel _ (by rw [nanosPerDay]; norm_num)]
  exact ⟨hval, by rw [hval]; omega⟩

theorem daysSince_exact_boundary_witness :
    daysSince 63900000000000000000 (63900000000000000000 - 365 * nanosPerDay) = 365 ∧
    ¬((365 : Int) > 0 ∧
      daysSince 63900000000000000000 (63900000000000000000 - 365 * nanosPerDay) < 365) :=
  daysSince_exact_boundary.2 63900000000000000000 365 (by norm_num) (by norm_num)

/-- C10 counterexample: at a present-day clock value, daysSince of the
zero time saturates at 106751, so a directive with daysClosed = 106752
(and lock set) is blocked on a never-closed open issue: handleIssue emits
nothing, although the claim says the daysClosed check never blocks such an
issue. -/
theorem zero_closedAt_cex :
    daysSince 63900000000000000000 0 = 106751 ∧
    handleIssue 63900000000000000000 (Issue.mk 5 "open" false 0 0 [])
      (ConfigDirective.mk "" "" 106752 0 "" true false "") = [] := by
  exact ⟨by decide, by decide⟩

/-- Helper: once the wall clock is at least maxDuration past the zero
time (true of any real clock since year 293), daysSince of the zero time
is exactly the saturated day count 106751. -/
theorem daysSince_zero_time (now : Int) (h : maxDuration ≤ now) :
    daysSince now 0 = 106751 := by
  have hgs : goSub now 0 = maxDuration := by
    simp only [goSub, maxDuration, minDuration, sub_zero] at *
    split_ifs with h1 h2 <;> omega
  rw [daysSince, hgs]
  decide

/-- C10 amended: for any realistic clock (at least maxDuration past the
zero time) and an unlocked issue whose closedAt is unset (the zero time),
a directive with 0 < daysClosed ≤ 106751 is never blocked by the
daysClosed check — daysSince of the zero time saturates at 106751 — so
with no daysNotUpdated cutoff a lock directive locks the open issue. -/
theorem zero_closedAt_not_blocked (now : Int) (i : Issue) (d : ConfigDirective)
    (hnow : maxDuration ≤ now) (hlock : i.locked = false) (hca : i.closedAt = 0)
    (hdc : 0 < d.daysClosed) (hle : d.daysClosed ≤ 106751) :
    ¬(d.daysClosed > 0 ∧ daysSince now i.closedAt < d.daysClosed) ∧
    (d.daysNotUpdated ≤ 0 → d.lock = true →
      Action.lockA i.number ∈ handleIssue now i d) := by
  have hds : daysSince now i.closedAt = 106751 := by
    rw [hca]; exact daysSince_zero_time now hnow
  constructor
  · rw [hds]; omega
  · intro hdnu hlck
    rw [handleIssue, if_neg (by simp [hlock]), if_neg (by rw [hds]; omega),
      if_neg (by omega), hlck]
    simp

theorem zero_closedAt_not_blocked_witness :
    ¬((ConfigDirective.mk "" "" 365 0 "" true false "").daysClosed > 0 ∧
      daysSince 63900000000000000000 (Issue.mk 5 "open" false 0 0 []).closedAt <
        (ConfigDirective.mk "" "" 365 0 "" true false "").daysClosed) ∧
    ((ConfigDirective.mk "" "" 365 0 "" true false "").daysNotUpdated ≤ 0 →
      (ConfigDirective.mk "" "" 365 0 "" true false "").lock = true →
      Action.lockA (Issue.mk 5 "open" false 0 0 []).number ∈
        handleIssue 63900000000000000000 (Issue.mk 5 "open" false 0 0 [])
          (ConfigDirective.mk "" "" 365 0 "" true false "")) :=
  zero_closedAt_not_blocked 63900000000000000000 _ _ (by norm_num [maxDuration])
    rfl rfl (by norm_num) (by norm_num)

/-- Helper: handleIssue on an unlocked issue passing both age checks is
the concatenation of the label, close and lock steps. -/
theorem handleIssue_unlocked (now : Int) (i : Issue) (d : ConfigDirective)
    (hlock : i.locked = false)
    (h1 : ¬(d.daysClosed > 0 ∧ daysSince now i.closedAt < d.daysClosed))
    (h2 : ¬(d.daysNotUpdated > 0 ∧ daysSince now i.updatedAt < d.daysNotUpdated)) :
    handleIssue now i d =
      (if d.label ≠ "" ∧ contains i.labels d.label = false then
        [Action.labelA i.number d.label] else [])
      ++ (if d.close ∧ i.state ≠ "closed" then
          (if d.closeComment ≠ "" then [Action.commentA i.number d.closeComment] else [])
          ++ [Action.closeA i.number]
        else [])
      ++ (if d.lock then [Action.lockA i.number] else []) := by
  rw [handleIssue, if_neg (by simp [hlock]), if_neg h1, if_neg h2]

/-- Helper: no CommentAction is emitted when the directive's closeComment
is empty. -/
theorem no_comment_of_empty_comment (now : Int) (i : Issue) (d : ConfigDirective)
    (h : d.closeComment = "") (b : String) :
    Action.commentA i.number b ∉ handleIssue now i d := by
  simp only [handleIssue]
  split_ifs <;> simp_all

/-- Helper: no CommentAction is emitted for an already-closed issue. -/
theorem no_comment_of_closed (now : Int) (i : Issue) (d : ConfigDirective)
    (h : i.state = "closed") (b : String) :
    Action.commentA i.number b ∉ handleIssue now i d := by
  simp only [handleIssue]
  split_ifs <;> simp_all

/-- C5: for every unlocked issue passing the age checks, when close is
set, closeComment is non-empty and the issue is not yet closed, the
CommentAction with the closeComment body appears immediately before the
CloseAction in the emitted sequence; and no CommentAction is emitted when
closeComment is empty or the issue is already closed. -/
theorem comment_precedes_close :
    (∀ (now : Int) (i : Issue) (d : ConfigDirective), i.locked = false →
      ¬(d.daysClosed > 0 ∧ daysSince now i.closedAt < d.daysClosed) →
      ¬(d.daysNotUpdated > 0 ∧ daysSince now i.updatedAt < d.daysNotUpdated) →
      d.close = true → d.closeComment ≠ "" → i.state ≠ "closed" →
      ∃ pre post, handleIssue now i d =
        pre ++ Action.commentA i.number d.closeComment ::
          Action.closeA i.number :: post) ∧
    (∀ (now : Int) (i : Issue) (d : ConfigDirective), d.closeComment = "" →
      ∀ b, Action.commentA i.number b ∉ handleIssue now i d) ∧
    (∀ (now : Int) (i : Issue) (d : ConfigDirective), i.state = "closed" →
      ∀ b, Action.commentA i.number b ∉ handleIssue now i d) := by
  refine ⟨fun now i d hlock h1 h2 hc hcc hs => ?_,
    no_comment_of_empty_comment, no_comment_of_closed⟩
  rw [handleIssue_unlocked now i d hlock h1 h2]
  have hclose : (if d.close ∧ i.state ≠ "closed" then
      (if d.closeComment ≠ "" then [Action.commentA i.number d.closeComment] else [])
      ++ [Action.closeA i.number] else []) =
      [Action.commentA i.number d.closeComment, Action.closeA i.number] := by
    rw [if_pos ⟨hc, hs⟩, if_pos hcc]; rfl
  refine ⟨if d.label ≠ "" ∧ contains i.labels d.label = false then
      [Action.labelA i.number d.label] else [],
    if d.lock then [Action.lockA i.number] else [], ?_⟩
  rw [hclose]
  simp

theorem comment_precedes_close_witness :
    ∃ pre post,
      handleIssue 0 (Issue.mk 3 "open" false 0 0 [])
        (ConfigDirective.mk "" "" 0 0 "" false true "closing old issue") =
      pre ++ Action.commentA 3 "closing old issue" :: Action.closeA 3 :: post :=
  comment_precedes_close.1 0 (Issue.mk 3 "open" false 0 0 [])
    (ConfigDirective.mk "" "" 0 0 "" false true "closing old issue")
    rfl (by decide) (by decide) rfl (by decide) (by decide)

/-- C6: for an unlocked issue passing the age checks, a directive whose
label is already present emits no LabelAction, yet its close and lock
steps are still evaluated and emit CommentAction, CloseAction and
LockAction under their own conditions in the same pass. -/
theorem label_already_present_noop (now : Int) (i : Issue) (d : ConfigDirective)
    (hlock : i.locked = false)
    (h1 : ¬(d.daysClosed > 0 ∧ daysSince now i.closedAt < d.daysClosed))
    (h2 : ¬(d.daysNotUpdated > 0 ∧ daysSince now i.updatedAt < d.daysNotUpdated))
    (_hlbl : d.label ≠ "") (hpresent : contains i.labels d.label = true) :
    (∀ s, Action.labelA i.number s ∉ handleIssue now i d) ∧
    (d.close = true → i.state ≠ "closed" →
      Action.closeA i.number ∈ handleIssue now i d ∧
      (d.closeComment ≠ "" →
        Action.commentA i.number d.closeComment ∈ handleIssue now i d)) ∧
    (d.lock = true → Action.lockA i.number ∈ handleIssue now i d) := by
  rw [handleIssue_unlocked now i d hlock h1 h2, if_neg (by simp [hpresent])]
  refine ⟨fun s => ?_, fun hc hs => ⟨?_, fun hcc => ?_⟩, fun hl => ?_⟩
  · split_ifs <;> simp_all
  · rw [if_pos ⟨hc, hs⟩]; simp
  · rw [if_pos ⟨hc, hs⟩, if_pos hcc]; simp
  · rw [hl]; simp

theorem label_already_present_noop_witness :
    (∀ s, Action.labelA 4 s ∉
      handleIssue 0 (Issue.mk 4 "open" false 0 0 [GHLabel.mk "stale"])
        (ConfigDirective.mk "" "" 0 0 "stale" true true "bye")) ∧
    ((ConfigDirective.mk "" "" 0 0 "stale" true true "bye").close = true →
      (Issue.mk 4 "open" false 0 0 [GHLabel.mk "stale"]).state ≠ "closed" →
      Action.closeA 4 ∈
        handleIssue 0 (Issue.mk 4 "open" false 0 0 [GHLabel.mk "stale"])
          (ConfigDirective.mk "" "" 0 0 "stale" true true "bye") ∧
      ((ConfigDirective.mk "" "" 0 0 "stale" true true "bye").closeComment ≠ "" →
        Action.commentA 4 "bye" ∈
          handleIssue 0 (Issue.mk 4 "open" false 0 0 [GHLabel.mk "stale"])
            (ConfigDirective.mk "" "" 0 0 "stale" true true "bye"))) ∧
    ((ConfigDirective.mk "" "" 0 0 "stale" true true "bye").lock = true →
      Action.lockA 4 ∈
        handleIssue 0 (Issue.mk 4 "open" false 0 0 [GHLabel.mk "stale"])
          (ConfigDirective.mk "" "" 0 0 "stale" true true "bye")) :=
  label_already_present_noop 0 (Issue.mk 4 "open" false 0 0 [GHLabel.mk "stale"])
    (ConfigDirective.mk "" "" 0 0 "stale" true true "bye")
    rfl (by decide) (by decide) (by decide) (by decide)

/-! ## Run-model helper lemmas -/

/-- Helper: repoStarts distributes over append. -/
theorem repoStarts_append : ∀ a b : List Event, repoStarts (a ++ b) = repoStarts a ++ repoStarts b
  | [], _ => rfl
  | e :: es, b => by
    cases e <;> simp [repoStarts, repoStarts_append es b]

/-- Helper: repoListReqs distributes over append. -/
theorem repoListReqs_append : ∀ a b : List Event,
    repoListReqs (a ++ b) = repoListReqs a ++ repoListReqs b
  | [], _ => rfl
  | e :: es, b => by
    cases e <;> simp [repoListReqs, repoListReqs_append es b]

/-- Helper: issue-level events are not repoStart log lines. -/
theorem repoStarts_of_issueLevel : ∀ evs : List Event, evs.all issueLevel = true →
    repoStarts evs = []
  | [], _ => rfl
  | e :: es, h => by
    rw [List.all_cons, Bool.and_eq_true] at h
    cases e <;> simp_all [issueLevel, repoStarts, repoStarts_of_issueLevel es]

/-- Helper: issue-level events are not repository enumeration requests. -/
theorem repoListReqs_of_issueLevel : ∀ evs : List Event, evs.all issueLevel = true →
    repoListReqs evs = []
  | [], _ => rfl
  | e :: es, h => by
    rw [List.all_cons, Bool.and_eq_true] at h
    cases e <;> simp_all [issueLevel, repoListReqs, repoListReqs_of_issueLevel es]

/-- Helper: every event of a findListLoop trace is issue-level. -/
theorem findListLoop_issueLevel (st : Store) (owner repo s : String) :
    ∀ (fuel : Nat) (acc : List Issue) (page : Nat) (evs : List Event)
      (r : Except Unit (List Issue)),
      findListLoop st owner repo s acc fuel page = some (evs, r) →
      evs.all issueLevel = true := by
  intro fuel
  induction fuel with
  | zero => intro acc page evs r h; simp [findListLoop] at h
  | succ f ih =>
    intro acc page evs r h
    rw [findListLoop] at h
    split at h
    · rcases h with ⟨rfl, rfl⟩ | _
      · simp [issueLevel]
    · split at h
      · rcases h with ⟨rfl, rfl⟩ | _
        · simp [issueLevel]
      · split at h
        · exact absurd h (by simp)
        · rcases h with ⟨rfl, rfl⟩ | _
          · rename_i heq
            simp only [List.all_cons, Bool.and_eq_true]
            exact ⟨rfl, ih _ _ _ _ heq⟩

/-- Helper: every event of a findSearchLoop trace is issue-level. -/
theorem findSearchLoop_issueLevel (st : Store) (q : String) :
    ∀ (fuel : Nat) (acc : List Issue) (page : Nat) (evs : List Event)
      (r : Except Unit (List Issue)),
      findSearchLoop st q acc fuel page = some (evs, r) →
      evs.all issueLevel = true := by
  intro fuel
  induction fuel with
  | zero => intro acc page evs r h; simp [findSearchLoop] at h
  | succ f ih =>
    intro acc page evs r h
    rw [findSearchLoop] at h
    split at h
    · rcases h with ⟨rfl, rfl⟩ | _
      · simp [issueLevel]
    · split at h
      · rcases h with ⟨rfl, rfl⟩ | _
        · simp [issueLevel]
      · split at h
        · exact absurd h (by simp)
        · rcases h with ⟨rfl, rfl⟩ | _
          · rename_i heq
            simp only [List.all_cons, Bool.and_eq_true]
            exact ⟨rfl, ih _ _ _ _ heq⟩

/-- Helper: every event of a findIssues trace is issue-level. -/
theorem findIssues_issueLevel (st : Store) (owner repo : String) (d : ConfigDirective)
    (fuel : Nat) (evs : List Event) (r : Except Unit (List Issue))
    (h : findIssues st owner repo d fuel = some (evs, r)) :
    evs.all issueLevel = true := by
  rw [findIssues] at h
  split at h
  · exact findSearchLoop_issueLevel st _ fuel [] 0 evs r h
  · exact findListLoop_issueLevel st owner repo d.state fuel [] 0 evs r h

/-- Helper: every event of a handleRepoIssuesRun trace is issue-level. -/
theorem handleRepoIssuesRun_issueLevel (st : Store) (now : Int) (owner repo : String)
    (fuel : Nat) :
    ∀ (ds : List ConfigDirective) (evs : List Event) (c : Option Nat),
      handleRepoIssuesRun st now owner repo fuel ds = some (evs, c) →
      evs.all issueLevel = true := by
  intro ds
  induction ds with
  | nil =>
    intro evs c h
    rw [handleRepoIssuesRun] at h
    rcases h with ⟨rfl, rfl⟩ | _
    · rfl
  | cons d ds ih =>
    intro evs c h
    rw [handleRepoIssuesRun] at h
    split at h
    · exact absurd h (by simp)
    · rcases h with ⟨rfl, rfl⟩ | _
      · rename_i heq
        exact findIssues_issueLevel st owner repo d fuel _ _ heq
    · split at h
      · exact absurd h (by simp)
      · rcases h with ⟨rfl, rfl⟩ | _
        · rename_i evs1 issues heq1 evs2 c2 heq2
          simp only [List.all_append, Bool.and_eq_true]
          refine ⟨⟨findIssues_issueLevel st owner repo d fuel _ _ heq1, ?_⟩, ih _ _ heq2⟩
          simp only [List.all_eq_true]
          intro e he
          rw [List.mem_flatten] at he
          obtain ⟨l, hl, hel⟩ := he
          rw [List.mem_map] at hl
          obtain ⟨i, _, rfl⟩ := hl
          rw [List.mem_map] at hel
          obtain ⟨a, _, rfl⟩ := hel
          rfl

/-- Helper: a processRepos trace contains no repository enumeration
requests. -/
theorem processRepos_repoListReqs (st : Store) (now : Int) (owner : String)
    (ds : List ConfigDirective) (fuel : Nat) :
    ∀ (rs : List String) (evs : List Event) (c : Option Nat),
      processRepos st now owner ds fuel rs = some (evs, c) →
      repoListReqs evs = [] := by
  intro rs
  induction rs with
  | nil =>
    intro evs c h
    rw [processRepos] at h
    rcases h with ⟨rfl, rfl⟩ | _
    · rfl
  | cons r rs ih =>
    intro evs c h
    rw [processRepos] at h
    split at h
    · exact absurd h (by simp)
    · rcases h with ⟨rfl, rfl⟩ | _
      · rename_i evs1 c1 heq1
        simp only [repoListReqs]
        exact repoListReqs_of_issueLevel _ (handleRepoIssuesRun_issueLevel st now owner r fuel ds _ _ heq1)
    · split at h
      · exact absurd h (by simp)
      · rcases h with ⟨rfl, rfl⟩ | _
        · rename_i evs1 heq1 evs2 c2 heq2
          simp only [repoListReqs, List.append_eq, repoListReqs_append]
          rw [repoListReqs_of_issueLevel _ (handleRepoIssuesRun_issueLevel st now owner r fuel ds _ _ heq1),
            ih _ _ heq2]
          rfl

/-- Helper: a completed processRepos run logs exactly its repository list,
in order. -/
theorem processRepos_repoStarts (st : Store) (now : Int) (owner : String)
    (ds : List ConfigDirective) (fuel : Nat) :
    ∀ (rs : List String) (evs : List Event),
      processRepos st now owner ds fuel rs = some (evs, none) →
      repoStarts evs = rs := by
  intro rs
  induction rs with
  | nil =>
    intro evs h
    rw [processRepos] at h
    rcases h with ⟨rfl, rfl⟩ | _
    · rfl
  | cons r rs ih =>
    intro evs h
    rw [processRepos] at h
    split at h
    · exact absurd h (by simp)
    · exact absurd h (by simp)
    · split at h
      · exact absurd h (by simp)
      · rcases h with ⟨rfl, rfl⟩ | _
        · rename_i evs1 heq1 evs2 c2 heq2
          simp only [repoStarts, List.append_eq, repoStarts_append]
          rw [repoStarts_of_issueLevel _ (handleRepoIssuesRun_issueLevel st now owner r fuel ds _ _ heq1),
            ih _ heq2]
          rfl

/-- Helper: with no directives, processing a repository list only logs
each repository. -/
theorem processRepos_nil_ds (st : Store) (now : Int) (owner : String) (fuel : Nat) :
    ∀ rs : List String,
      processRepos st now owner [] fuel rs =
        some (rs.map (Event.repoStart owner), none) := by
  intro rs
  induction rs with
  | nil => rfl
  | cons r rs ih =>
    rw [processRepos, handleRepoIssuesRun, ih]
    rfl

/-- C8: a configuration entry with an empty owner aborts the whole run at
once with exit code 2: nothing of that entry (and no later entry) is
processed, and the code is distinct from the exit code 1 used for
transport and mutation failures. -/
theorem empty_owner_aborts (st : Store) (now : Int) (fuel : Nat)
    (cfg : ConfigEntry) (rest : List ConfigEntry) (h : cfg.owner = "") :
    runEntries st now fuel (cfg :: rest) = some ([], some 2) ∧ (2 : Nat) ≠ 1 := by
  refine ⟨?_, by decide⟩
  rw [runEntries, processEntry, if_pos h]

theorem empty_owner_aborts_witness :
    runEntries emptyStore 0 1 [ConfigEntry.mk "" ["x"] []] = some ([], some 2) ∧
      (2 : Nat) ≠ 1 :=
  empty_owner_aborts emptyStore 0 1 (ConfigEntry.mk "" ["x"] []) [] rfl

/-- C7: when any paginated fetch of issue selection fails, the run aborts
with exit status 1: at the failing page (whether in the listing or search
loop, at any point of the pagination) the fetch appears exactly once in
the trace — it is not retried and no further page is requested — the
selection error turns into exit 1 with no further directives evaluated,
and end to end no further issues, directives, repositories of the entry,
or later configuration entries are processed. -/
theorem selection_failure_aborts :
    (∀ (st : Store) (owner repo s : String) (acc : List Issue) (fuel page : Nat),
      st.listIssuesPage owner repo s page = Except.error () →
      findListLoop st owner repo s acc (fuel + 1) page =
        some ([Event.listIssuesReq owner repo s 100 page], Except.error ())) ∧
    (∀ (st : Store) (q : String) (acc : List Issue) (fuel page : Nat),
      st.searchIssuesPage q page = Except.error () →
      findSearchLoop st q acc (fuel + 1) page =
        some ([Event.searchIssuesReq q 100 page], Except.error ())) ∧
    (∀ (st : Store) (now : Int) (owner repo : String) (fuel : Nat)
      (d : ConfigDirective) (ds : List ConfigDirective) (evs : List Event),
      findIssues st owner repo d fuel = some (evs, Except.error ()) →
      handleRepoIssuesRun st now owner repo fuel (d :: ds) = some (evs, some 1)) ∧
    (∀ (st : Store) (now : Int) (fuel : Nat) (cfg : ConfigEntry) (r : String)
      (rs : List String) (d : ConfigDirective) (ds : List ConfigDirective)
      (rest : List ConfigEntry),
      cfg.owner ≠ "" → cfg.repos = r :: rs → cfg.directives = d :: ds →
      d.query = "" → st.listIssuesPage cfg.owner r d.state 0 = Except.error () →
      runEntries st now (fuel + 1) (cfg :: rest) =
        some ([Event.repoStart cfg.owner r,
          Event.listIssuesReq cfg.owner r d.state 100 0], some 1)) := by
  have hlist : ∀ (st : Store) (owner repo s : String) (acc : List Issue)
      (fuel page : Nat), st.listIssuesPage owner repo s page = Except.error () →
      findListLoop st owner repo s acc (fuel + 1) page =
        some ([Event.listIssuesReq owner repo s 100 page], Except.error ()) := by
    intro st owner repo s acc fuel page hfail
    rw [findListLoop, hfail]
  have hprop : ∀ (st : Store) (now : Int) (owner repo : String) (fuel : Nat)
      (d : ConfigDirective) (ds : List ConfigDirective) (evs : List Event),
      findIssues st owner repo d fuel = some (evs, Except.error ()) →
      handleRepoIssuesRun st now owner repo fuel (d :: ds) = some (evs, some 1) := by
    intro st now owner repo fuel d ds evs hfind
    rw [handleRepoIssuesRun, hfind]
  refine ⟨hlist, ?_, hprop, ?_⟩
  · intro st q acc fuel page hfail
    rw [findSearchLoop, hfail]
  · intro st now fuel cfg r rs d ds rest hown hrepos hds hq hfail
    have hfind : findIssues st cfg.owner r d (fuel + 1) =
        some ([Event.listIssuesReq cfg.owner r d.state 100 0], Except.error ()) := by
      rw [findIssues, if_neg (by simp [hq]), findIssuesByList]
      exact hlist st cfg.owner r d.state [] fuel 0 hfail
    have hpr : processRepos st now cfg.owner (d :: ds) (fuel + 1) (r :: rs) =
        some ([Event.repoStart cfg.owner r,
          Event.listIssuesReq cfg.owner r d.state 100 0], some 1) := by
      rw [processRepos, hprop st now cfg.owner r (fuel + 1) d ds _ hfind]
    have hpe : processEntry st now (fuel + 1) cfg =
        some ([Event.repoStart cfg.owner r,
          Event.listIssuesReq cfg.owner r d.state 100 0], some 1) := by
      rw [processEntry, if_neg hown, hds, hrepos, hpr]
    rw [runEntries, hpe]

theorem selection_failure_aborts_witness :
    runEntries brokenIssueStore 0 1
      [ConfigEntry.mk "acme" ["x"] [ConfigDirective.mk "" "" 0 0 "" false false ""]] =
      some ([Event.repoStart "acme" "x", Event.listIssuesReq "acme" "x" "" 100 0],
        some 1) :=
  selection_failure_aborts.2.2.2 brokenIssueStore 0 0
    (ConfigEntry.mk "acme" ["x"] [ConfigDirective.mk "" "" 0 0 "" false false ""])
    "x" [] (ConfigDirective.mk "" "" 0 0 "" false false "") [] []
    (by decide) rfl rfl rfl rfl

/-- Helper: pure repository-processing logs are exactly the repositories. -/
theorem repoStarts_map_repoStart (owner : String) :
    ∀ rs : List String, repoStarts (rs.map (Event.repoStart owner)) = rs
  | [] => rfl
  | r :: rs => by
    simp only [List.map_cons, repoStarts]
    rw [repoStarts_map_repoStart owner rs]

/-- Helper: repository-processing logs contain no enumeration requests. -/
theorem repoListReqs_map_repoStart (owner : String) :
    ∀ rs : List String, repoListReqs (rs.map (Event.repoStart owner)) = []
  | [] => rfl
  | r :: rs => by
    simp only [List.map_cons, repoListReqs]
    exact repoListReqs_map_repoStart owner rs

/-- Helper: with explicit repositories, the entry body is exactly the
processing of that list (the enumeration loop is never entered). -/
theorem processEntry_explicit (st : Store) (now : Int) (fuel : Nat) (cfg : ConfigEntry)
    (hown : cfg.owner ≠ "") (hne : cfg.repos ≠ []) :
    processEntry st now fuel cfg =
      processRepos st now cfg.owner cfg.directives fuel cfg.repos := by
  rw [processEntry, if_neg hown]
  cases hpr : processRepos st now cfg.owner cfg.directives fuel cfg.repos with
  | none => rfl
  | some p =>
    obtain ⟨evs, c⟩ := p
    cases c with
    | none => simp [hne]
    | some c => rfl

/-- Helper: over the pagesOracle store with no directives, the
enumeration loop from page `p` produces exactly the expected trace and
terminates normally; `m` counts the pages still to visit. -/
theorem listReposLoop_pages (st : Store) (now : Int) (owner : String)
    (pages : List (List String)) (hst : ∀ p, st.listRepos owner p = pagesOracle pages p)
    (fuel : Nat) :
    ∀ (m p lfuel : Nat), m ≤ lfuel →
      (pages.length = 0 ∧ p = 0 ∧ m = 1 ∨ p < pages.length ∧ m = pages.length - p) →
      listReposLoop st now owner [] fuel lfuel p =
        some (enumTrace owner pages m p, none) := by
  intro m
  induction m with
  | zero => intro p lfuel hle hinv; omega
  | succ k ih =>
    intro p lfuel hle hinv
    obtain ⟨l, rfl⟩ : ∃ l, lfuel = l + 1 := ⟨lfuel - 1, by omega⟩
    by_cases hnext : p + 1 < pages.length
    · have hkinv : pages.length = 0 ∧ p + 1 = 0 ∧ k = 1 ∨
          p + 1 < pages.length ∧ k = pages.length - (p + 1) := by
        rcases hinv with ⟨h0, _, _⟩ | ⟨hp, hm⟩
        · omega
        · exact Or.inr ⟨hnext, by omega⟩
      have hrec := ih (p + 1) l (by omega) hkinv
      rw [listReposLoop]
      simp only [hst p, pagesOracle, processRepos_nil_ds, if_pos hnext, hrec,
        Nat.succ_ne_zero, if_false]
      rw [enumTrace, if_pos hnext]
    · rw [listReposLoop]
      simp only [hst p, pagesOracle, processRepos_nil_ds, if_neg hnext, if_pos rfl]
      rw [enumTrace, if_neg hnext]
      simp

/-- Helper: the expected enumeration trace logs exactly the remaining
repositories, in page order. -/
theorem enumTrace_repoStarts (owner : String) (pages : List (List String)) :
    ∀ (m p : Nat),
      (pages.length = 0 ∧ p = 0 ∧ m = 1 ∨ p < pages.length ∧ m = pages.length - p) →
      repoStarts (enumTrace owner pages m p) = (pages.drop p).flatten := by
  intro m
  induction m with
  | zero => intro p h; omega
  | succ k ih =>
    intro p hinv
    rw [enumTrace]
    by_cases hnext : p + 1 < pages.length
    · have hp : p < pages.length := by omega
      rw [if_pos hnext]
      simp only [repoStarts, List.append_eq, repoStarts_append, repoStarts_map_repoStart]
      have hkinv : pages.length = 0 ∧ p + 1 = 0 ∧ k = 1 ∨
          p + 1 < pages.length ∧ k = pages.length - (p + 1) := by
        rcases hinv with ⟨h0, _, _⟩ | ⟨_, hm⟩
        · omega
        · exact Or.inr ⟨hnext, by omega⟩
      rw [ih (p + 1) hkinv, List.drop_eq_getElem_cons hp, List.flatten_cons]
      simp [List.getElem?_eq_getElem hp]
    · rw [if_neg hnext]
      simp only [repoStarts, List.append_eq, repoStarts_append, repoStarts_map_repoStart]
      rcases hinv with ⟨h0, rfl, _⟩ | ⟨hp, hm⟩
      · rw [List.length_eq_zero] at h0
        subst h0
        simp [repoStarts]
      · have hlen : pages.length = p + 1 := by omega
        rw [List.drop_eq_getElem_cons hp, List.flatten_cons,
          List.drop_eq_nil_of_le (by omega), List.flatten_nil]
        simp [repoStarts, List.getElem?_eq_getElem hp]

/-- Helper: the expected enumeration trace requests exactly the pages
`p, p+1, ...`, each with per-page 100. -/
theorem enumTrace_reqs (owner : String) (pages : List (List String)) :
    ∀ (m p : Nat),
      (pages.length = 0 ∧ p = 0 ∧ m = 1 ∨ p < pages.length ∧ m = pages.length - p) →
      repoListReqs (enumTrace owner pages m p) =
        (List.range' p m).map (fun q => (100, q)) := by
  intro m
  induction m with
  | zero => intro p h; omega
  | succ k ih =>
    intro p hinv
    rw [enumTrace, List.range'_succ]
    by_cases hnext : p + 1 < pages.length
    · rw [if_pos hnext]
      simp only [repoListReqs, List.append_eq, repoListReqs_append,
        repoListReqs_map_repoStart, List.map_cons]
      have hkinv : pages.length = 0 ∧ p + 1 = 0 ∧ k = 1 ∨
          p + 1 < pages.length ∧ k = pages.length - (p + 1) := by
        rcases hinv with ⟨h0, _, _⟩ | ⟨_, hm⟩
        · omega
        · exact Or.inr ⟨hnext, by omega⟩
      rw [ih (p + 1) hkinv]
      rfl
    · rw [if_neg hnext]
      have hk : k = 0 := by
        rcases hinv with ⟨h0, _, hm⟩ | ⟨hp, hm⟩ <;> omega
      subst hk
      simp only [repoListReqs, List.append_eq, repoListReqs_append,
        repoListReqs_map_repoStart, List.range'_zero, List.map_cons, List.map_nil]
      rfl

/-- C9: with a non-empty repos list, the entry processes exactly that
list in order and makes no repository enumeration call; with an empty
repos list, it pages through the owner's repositories per-page 100 from
the zero page, following NextPage until the store reports none, and
processes every discovered repository in order (stated over the
pagesOracle listing, with no directives so that the trace shows the
enumeration alone). -/
theorem repo_selection :
    (∀ (st : Store) (now : Int) (fuel : Nat) (cfg : ConfigEntry),
      cfg.owner ≠ "" → cfg.repos ≠ [] →
      processEntry st now fuel cfg =
        processRepos st now cfg.owner cfg.directives fuel cfg.repos ∧
      (∀ evs c,
        processRepos st now cfg.owner cfg.directives fuel cfg.repos = some (evs, c) →
        repoListReqs evs = []) ∧
      (∀ evs,
        processRepos st now cfg.owner cfg.directives fuel cfg.repos = some (evs, none) →
        repoStarts evs = cfg.repos)) ∧
    (∀ (st : Store) (now : Int) (owner : String) (pages : List (List String)) (fuel : Nat),
      owner ≠ "" → (∀ p, st.listRepos owner p = pagesOracle pages p) →
      pages.length < fuel →
      processEntry st now fuel (ConfigEntry.mk owner [] []) =
        some (enumTrace owner pages (max pages.length 1) 0, none) ∧
      repoStarts (enumTrace owner pages (max pages.length 1) 0) = pages.flatten ∧
      repoListReqs (enumTrace owner pages (max pages.length 1) 0) =
        (List.range (max pages.length 1)).map (fun q => (100, q))) := by
  constructor
  · intro st now fuel cfg hown hne
    exact ⟨processEntry_explicit st now fuel cfg hown hne,
      fun evs c h => processRepos_repoListReqs st now cfg.owner cfg.directives fuel _ _ _ h,
      fun evs h => processRepos_repoStarts st now cfg.owner cfg.directives fuel _ _ h⟩
  · intro st now owner pages fuel hown hst hfuel
    have hinv : pages.length = 0 ∧ 0 = 0 ∧ max pages.length 1 = 1 ∨
        0 < pages.length ∧ max pages.length 1 = pages.length - 0 := by
      rcases Nat.eq_zero_or_pos pages.length with h | h
      · exact Or.inl ⟨h, rfl, by omega⟩
      · exact Or.inr ⟨h, by omega⟩
    have hloop := listReposLoop_pages st now owner pages hst fuel
      (max pages.length 1) 0 fuel (by omega) hinv
    refine ⟨?_, ?_, ?_⟩
    · rw [processEntry, if_neg hown]
      show (match processRepos st now owner [] fuel [] with
        | none => none
        | some (evs, some c) => some (evs, some c)
        | some (evs, none) =>
          if ([] : List String) ≠ [] then some (evs, none)
          else match listReposLoop st now owner [] fuel fuel 0 with
            | none => none
            | some (evs2, c) => some (evs ++ evs2, c)) = _
      rw [processRepos]
      simp only [ne_eq, not_true_eq_false, if_false, hloop, List.nil_append]
    · have := enumTrace_repoStarts owner pages (max pages.length 1) 0 hinv
      simpa using this
    · have := enumTrace_reqs owner pages (max pages.length 1) 0 hinv
      rw [this, List.range_eq_range']

theorem repo_selection_witness :
    (processEntry emptyStore 0 1 (ConfigEntry.mk "acme" ["x"] []) =
      processRepos emptyStore 0 "acme" [] 1 ["x"]) ∧
    (processEntry pagesStoreW 0 3 (ConfigEntry.mk "acme" [] []) =
      some (enumTrace "acme" pagesW (max pagesW.length 1) 0, none)) :=
  ⟨(repo_selection.1 emptyStore 0 1 (ConfigEntry.mk "acme" ["x"] [])
      (by decide) (by decide)).1,
   (repo_selection.2 pagesStoreW 0 "acme" pagesW 3 (by decide) (fun p => rfl)
      (by decide)).1⟩

end Freezebot
